import Mathlib

/-!
Shallow embedding of `lib/ansible/executor/stats.py` (classes `AggregateStats`
and `DictionaryStats`) together with the construction-time playbook-name
scanning helpers. Python dicts that are only ever read with `.get(key, 0)`
are modelled as total functions with default `0`; the open-typed custom-stat
store is modelled with an explicit `PyVal` value universe so that the dynamic
`isinstance` checks and the overloaded `+` of the source can be stated
faithfully. Operations return a pair of the post-state and an optional
Python exception: the post-state records all mutations that happened before
the exception was raised, exactly as in the source.
-/

namespace Stats

/-- Python exceptions that the modelled code can raise. -/
inductive PyErr where
  | attributeError
  | typeError
  | nameResolutionError
  | valueError
  deriving DecidableEq, Repr

/-- Values that can live in the user-defined custom-stat store.  The
constructors mirror the Python runtime types that flow through
`set_custom_stats` / `update_custom_stats` (`int`, `bool`, `str`, `list`,
`dict`); dictionaries are insertion-ordered association lists, as in
Python. -/
inductive PyVal where
  | int : Int → PyVal
  | bool : Bool → PyVal
  | str : String → PyVal
  | list : List PyVal → PyVal
  | dict : List (String × PyVal) → PyVal

/-- Runtime type tags, the result of Python `type(v)`. -/
inductive PyType where
  | int
  | bool
  | str
  | list
  | dict
  deriving DecidableEq, Repr

/-- The runtime type of a value (`type(v)` in Python). -/
def PyVal.tag : PyVal → PyType
  | .int _ => .int
  | .bool _ => .bool
  | .str _ => .str
  | .list _ => .list
  | .dict _ => .dict

/-- Python `isinstance(v, t)` for our value universe.  `bool` is a subclass
of `int` in Python, so a `bool` value is an instance of `int`. -/
def pyIsInstance (v : PyVal) (t : PyType) : Bool :=
  match t, v.tag with
  | .int, .int => true
  | .int, .bool => true
  | .bool, .bool => true
  | .str, .str => true
  | .list, .list => true
  | .dict, .dict => true
  | _, _ => false

/-- Python `isinstance(v, MutableMapping)`. -/
def pyIsMapping (v : PyVal) : Bool :=
  match v with
  | .dict _ => true
  | _ => false

/-- The overloaded `+` of Python on matching operand types (`None` models a
`TypeError`).  `bool + bool` and `int + bool` produce `int`s, as in Python. -/
def pyAdd : PyVal → PyVal → Option PyVal
  | .int a, .int b => some (.int (a + b))
  | .int a, .bool b => some (.int (a + (if b then 1 else 0)))
  | .bool a, .int b => some (.int ((if a then 1 else 0) + b))
  | .bool a, .bool b => some (.int ((if a then 1 else 0) + (if b then 1 else 0)))
  | .str a, .str b => some (.str (a ++ b))
  | .list a, .list b => some (.list (a ++ b))
  | _, _ => none

/-- Lookup in an insertion-ordered association list (Python `d.get(k)` /
`k in d`). -/
def alistGet {α : Type} (m : List (String × α)) (k : String) : Option α :=
  match m with
  | [] => none
  | (k', v) :: rest => if k' = k then some v else alistGet rest k

/-- Python `d[k] = v` on an insertion-ordered association list: an existing
key keeps its position and gets the new value, a new key is appended. -/
def alistSet {α : Type} (m : List (String × α)) (k : String) (v : α) : List (String × α) :=
  match m with
  | [] => [(k, v)]
  | (k', v') :: rest => if k' = k then (k, v) :: rest else (k', v') :: alistSet rest k v

/-- Pointwise update of a default-valued map. -/
def upd {α : Type} (f : String → α) (k : String) (v : α) : String → α :=
  fun x => if x = k then v else f x

/-- Modelled from the spec: `merge_hash` from `ansible.utils.vars` is not
under `src/`; the spec describes it as a deep merge where later values for a
key overwrite and nested mappings merge recursively. -/
def merge_hash : List (String × PyVal) → List (String × PyVal) → List (String × PyVal)
  | a, [] => a
  | a, (k, v) :: rest =>
      let a' :=
        match alistGet a k, v with
        | some (PyVal.dict va), PyVal.dict vb => alistSet a k (PyVal.dict (merge_hash va vb))
        | _, _ => alistSet a k v
      merge_hash a' rest
  termination_by _ b => sizeOf b

/-- State of `AggregateStats`: the six per-host counter dicts (read in the
source only through `.get(host, 0)`, hence modelled as total functions with
default `0`) and the custom-stat store `custom`, a dict from host (or the
global sentinel run key) to the per-host dict of named values.  The source
stores a whole Python dict as the value of `custom[host]`, and `increment`
can (via `getattr`) also store an `int` there, so the entry type is
`PyVal`. -/
structure AggregateStats where
  processed : String → Nat
  failures : String → Nat
  ok : String → Nat
  dark : String → Nat
  changed : String → Nat
  skipped : String → Nat
  custom : String → Option PyVal

/-- `AggregateStats.__init__`: all counters empty, no custom stats. -/
def freshAgg : AggregateStats where
  processed := fun _ => 0
  failures := fun _ => 0
  ok := fun _ => 0
  dark := fun _ => 0
  changed := fun _ => 0
  skipped := fun _ => 0
  custom := fun _ => none

/-- `AggregateStats.increment(self, what, host)`.  The source first executes
`self.processed[host] = 1` and then looks the attribute named `what` up
dynamically with `getattr`.  The dict-valued attributes of the object are the
six counters and `custom`; for the counters `prev = d.get(host, 0);
d[host] = prev + 1`.  For `custom`, `.get(host, 0)` yields the stored entry
(or `0`), and `+ 1` succeeds only on an `int`, storing an `int` back.  Any
other `what` raises `AttributeError` — after `processed[host]` was already
set.  The returned pair is the post-state (including mutations made before a
raise) and the raised exception, if any. -/
def AggregateStats.increment (s : AggregateStats) (what host : String) :
    AggregateStats × Option PyErr :=
  let s := { s with processed := upd s.processed host 1 }
  if what = "processed" then
    ({ s with processed := upd s.processed host (s.processed host + 1) }, none)
  else if what = "failures" then
    ({ s with failures := upd s.failures host (s.failures host + 1) }, none)
  else if what = "ok" then
    ({ s with ok := upd s.ok host (s.ok host + 1) }, none)
  else if what = "dark" then
    ({ s with dark := upd s.dark host (s.dark host + 1) }, none)
  else if what = "changed" then
    ({ s with changed := upd s.changed host (s.changed host + 1) }, none)
  else if what = "skipped" then
    ({ s with skipped := upd s.skipped host (s.skipped host + 1) }, none)
  else if what = "custom" then
    match s.custom host with
    | none => ({ s with custom := upd s.custom host (some (PyVal.int 1)) }, none)
    | some (PyVal.int n) =>
        ({ s with custom := upd s.custom host (some (PyVal.int (n + 1))) }, none)
    | some _ => (s, some PyErr.typeError)
  else
    (s, some PyErr.attributeError)

/-- The record returned by `AggregateStats.summarize`. -/
structure Summary where
  ok : Nat
  failures : Nat
  unreachable : Nat
  changed : Nat
  skipped : Nat
  deriving DecidableEq, Repr

/-- `AggregateStats.summarize(self, host)`: a snapshot of the five
reporting counters for `host`, each defaulting to `0`; note that the
`dark` counter is reported under the key `unreachable`. -/
def AggregateStats.summarize (s : AggregateStats) (host : String) : Summary where
  ok := s.ok host
  failures := s.failures host
  unreachable := s.dark host
  changed := s.changed host
  skipped := s.skipped host

/-- `AggregateStats.set_custom_stats(self, which, what, host=None)`:
normalizes a missing host to the sentinel key `_run`, then creates or
overwrites the entry.  If a pathological earlier `increment("custom", h)`
left a non-dict at `custom[host]`, the item assignment raises
`TypeError`. -/
def AggregateStats.set_custom_stats (s : AggregateStats) (which : String)
    (what : PyVal) (host : Option String) : AggregateStats × Option PyErr :=
  let hostKey := host.getD "_run"
  match s.custom hostKey with
  | none =>
      ({ s with custom := upd s.custom hostKey (some (PyVal.dict [(which, what)])) }, none)
  | some (PyVal.dict d) =>
      ({ s with custom := upd s.custom hostKey (some (PyVal.dict (alistSet d which what))) }, none)
  | some _ => (s, some PyErr.typeError)

/-- `AggregateStats.update_custom_stats(self, which, what, host=None)`.
With no prior value for `(host, which)` it delegates to
`set_custom_stats`.  With a prior value it returns without touching
anything when `isinstance(what, type(prior))` fails; otherwise it
`merge_hash`-merges mappings and combines any other type with the
overloaded `+`. -/
def AggregateStats.update_custom_stats (s : AggregateStats) (which : String)
    (what : PyVal) (host : Option String) : AggregateStats × Option PyErr :=
  let hostKey := host.getD "_run"
  match s.custom hostKey with
  | none => s.set_custom_stats which what (some hostKey)
  | some (PyVal.dict d) =>
      match alistGet d which with
      | none => s.set_custom_stats which what (some hostKey)
      | some prior =>
          if pyIsInstance what prior.tag = false then (s, none)
          else if pyIsMapping what then
            match prior, what with
            | PyVal.dict dp, PyVal.dict dw =>
                let d' := alistSet d which (PyVal.dict (merge_hash dp dw))
                ({ s with custom := upd s.custom hostKey (some (PyVal.dict d')) }, none)
            | _, _ => (s, some PyErr.typeError)
          else
            match pyAdd prior what with
            | some v =>
                let d' := alistSet d which v
                ({ s with custom := upd s.custom hostKey (some (PyVal.dict d')) }, none)
            | none => (s, some PyErr.typeError)
  | some _ =>
      -- `which not in self.custom[host]` on a non-dict raises TypeError
      (s, some PyErr.typeError)

/-- The fixed enumeration of outcome kinds, i.e. the dict-valued counter
attributes that `increment` is meant to be driven with.  The source spells
the failure and unreachable counters `failures` and `dark`. -/
inductive StatKind where
  | processed
  | ok
  | failures
  | dark
  | changed
  | skipped
  deriving DecidableEq, Repr

/-- The attribute name string passed for a given outcome kind. -/
def StatKind.attr : StatKind → String
  | .processed => "processed"
  | .ok => "ok"
  | .failures => "failures"
  | .dark => "dark"
  | .changed => "changed"
  | .skipped => "skipped"

/-- Read the counter map selected by an outcome kind. -/
def StatKind.get : StatKind → AggregateStats → String → Nat
  | .processed => AggregateStats.processed
  | .ok => AggregateStats.ok
  | .failures => AggregateStats.failures
  | .dark => AggregateStats.dark
  | .changed => AggregateStats.changed
  | .skipped => AggregateStats.skipped

/-- The `summarize` field corresponding to an outcome kind; `processed` has
no field in the summary record (the value is irrelevant and fixed at 0). -/
def StatKind.summField : StatKind → Summary → Nat
  | .processed => fun _ => 0
  | .ok => Summary.ok
  | .failures => Summary.failures
  | .dark => Summary.unreachable
  | .changed => Summary.changed
  | .skipped => Summary.skipped

/-- Whether a character is stripped by Python `str.strip()`. -/
def pySpace (c : Char) : Bool :=
  c = ' ' || c = '\t' || c = '\n' || c = '\x0d' || c = '\x0b' || c = '\x0c'

/-- Python `pat in s` (substring containment) on character lists. -/
def containsSub (s pat : List Char) : Bool :=
  match s with
  | [] => pat.isEmpty
  | _ :: t => pat.isPrefixOf s || containsSub t pat

/-- Python `s.replace(pat, repl)` on character lists: replaces every
occurrence of a non-empty `pat`, left to right, without rescanning the
replacement text.  The first argument counts characters of a just-matched
occurrence still to be skipped (structural recursion on the string); a
scan starts with skip count `0`. -/
def replaceAll (pat repl : List Char) : Nat → List Char → List Char
  | _, [] => []
  | skip + 1, _ :: t => replaceAll pat repl skip t
  | 0, c :: t =>
      if !pat.isEmpty && pat.isPrefixOf (c :: t) then
        repl ++ replaceAll pat repl (pat.length - 1) t
      else
        c :: replaceAll pat repl 0 t

/-- Python `line.strip()` restricted to the whitespace charset. -/
def pyStrip (s : String) : String :=
  ⟨((s.data.dropWhile pySpace).reverse.dropWhile pySpace).reverse⟩

/-- Python `pat in line` on strings. -/
def pyContains (line pat : String) : Bool :=
  containsSub line.data pat.data

/-- Python `line.replace(pat, '')` on strings. -/
def pyErase (line pat : String) : String :=
  ⟨replaceAll pat.data [] 0 line.data⟩

/-- The per-line transformation of `_get_playbook_name`:
`line.replace(DQ, ZZ)` for `name:` then for `- `, then `.strip()`. -/
def nameLineValue (line : String) : String :=
  pyStrip (pyErase (pyErase line "name:") "- ")

/-- `DictionaryStats._get_playbook_name(self, playbook)` on the list of
lines of the file: every line whose stripped text contains `name:`
overwrites `key_name` with its transformed text (so the last such line
wins); an empty final `key_name` raises.  Containment of the space-free
marker `name:` in `line.strip()` is equivalent to containment in `line`
itself, which is how it is modelled.  `none` models the raise. -/
def _get_playbook_name (lines : List String) : Option String :=
  let key_name := lines.foldl
    (fun acc line => if pyContains line "name:" then nameLineValue line else acc) ""
  if key_name = "" then none else some key_name

/-- The dict comprehension of `_get_playbook_map`, processing the playbook
files left to right: an unresolvable name raises out of the comprehension,
otherwise the name is bound to the path (a repeated name overwrites). -/
def buildPlaybookMap (fs : String → List String) (m : List (String × String)) :
    List String → Except PyErr (List (String × String))
  | [] => .ok m
  | playbook :: rest =>
      match _get_playbook_name (fs playbook) with
      | none => .error PyErr.nameResolutionError
      | some n => buildPlaybookMap fs (alistSet m n playbook) rest

/-- `DictionaryStats._get_playbook_map(self, options)`: builds the
name-to-path dict over `options.args` (an unresolvable name raises out of
the dict comprehension), then raises when the dict has fewer entries than
there are files, i.e. when two files produced the same name.  The file
system is modelled as a function from path to list of lines.  (In the
source the duplicate-name branch crashes on `self.args` while formatting
the `ValueError`; either way an exception propagates, which is all the
model records.) -/
def _get_playbook_map (fs : String → List String) (args : List String) :
    Except PyErr (List (String × String)) :=
  match buildPlaybookMap fs [] args with
  | .error e => .error e
  | .ok m => if m.length ≠ args.length then .error PyErr.valueError else .ok m

/-- A play context handle: the `name` attribute is always present on a play
object but may be `None` (modelled `none`) or a string. -/
structure Play where
  name : Option String

/-- A role context handle: real role objects always carry `_role_name`
(possibly empty). -/
structure Role where
  _role_name : String

/-- A task context handle: `getattr(task, 'name', None)` and
`getattr(task, '_role', None)` are modelled as options. -/
structure Task where
  name : Option String
  _role : Option Role

/-- The composite key of the fine-grained index:
`(Path ..., Playbook ..., Role ..., Task ...)`. -/
abbrev TupleKey := String × String × String × String

/-- State of `DictionaryStats`: the inherited `AggregateStats` attributes
plus the playbook name-to-path map and the fine-grained
`processed_playbooks` index (host, composite key, outcome kind), again
modelled default-0 because the source reads it only through `.get` with
a default. -/
structure DictionaryStats where
  base : AggregateStats
  play_to_path_map : List (String × String)
  processed_playbooks : String → TupleKey → String → Nat

/-- `DictionaryStats.__init__(self, options)`: resolve the playbook map
(fail-fast) and start with empty counters and index. -/
def DictionaryStats.init (fs : String → List String) (args : List String) :
    Except PyErr DictionaryStats := do
  let m ← _get_playbook_map fs args
  return { base := freshAgg
           play_to_path_map := m
           processed_playbooks := fun _ _ _ => 0 }

/-- `DictionaryStats._get_playbook_key(self, play, use_path=True)`. -/
def _get_playbook_key (play : Option Play) : String :=
  match play with
  | none => "No play"
  | some p =>
      match p.name with
      | none => "Unnamed Play"
      | some n => if n = "" then "Unnamed Play" else n

/-- `DictionaryStats._get_task_and_role(self, task)`: the pair
`(task_name, role_name)`.  A missing task yields two empty strings, not
placeholder labels. -/
def _get_task_and_role (task : Option Task) : String × String :=
  match task with
  | none => ("", "")
  | some t =>
      let task_name :=
        match t.name with
        | none => "Unnamed Task"
        | some n => if n = "" then "Unnamed Task" else n
      let role_name :=
        match t._role with
        | none => "Unknown Role"
        | some r => if r._role_name = "" then "Unnamed Role" else r._role_name
      (task_name, role_name)

/-- The composite key built by `_increment_tuple_dict` once `play` is known
to be present. -/
def tupleKeyOf (m : List (String × String)) (p : Play) (task : Option Task) : TupleKey :=
  let playbook_path :=
    match p.name with
    | none => "N/A"
    | some n => (alistGet m n).getD "N/A"
  let tr := _get_task_and_role task
  ("Path: " ++ playbook_path, "Playbook: " ++ _get_playbook_key (some p),
    "Role: " ++ tr.2, "Task: " ++ tr.1)

/-- `DictionaryStats._increment_tuple_dict(self, what, host, play, task)`:
returns untouched for `skipped`, `ok` and `changed`; otherwise computes the
human-readable labels, then dereferences `play.name` — which raises
`AttributeError` when `play` is `None` — looks the play name up in the
path map (default `N/A`) and bumps the count at
`(host, tuple_key, what)`. -/
def DictionaryStats._increment_tuple_dict (d : DictionaryStats)
    (what host : String) (play : Option Play) (task : Option Task) :
    DictionaryStats × Option PyErr :=
  if what = "skipped" ∨ what = "ok" ∨ what = "changed" then (d, none)
  else
    match play with
    | none => (d, some PyErr.attributeError)
    | some p =>
        let tk := tupleKeyOf d.play_to_path_map p task
        let old := d.processed_playbooks host tk what
        let pp := fun h' tk' w' =>
          if h' = host ∧ tk' = tk ∧ w' = what then old + 1
          else d.processed_playbooks h' tk' w'
        ({ d with processed_playbooks := pp }, none)

/-- `DictionaryStats.increment(self, what, host, play=None, task=None)`:
first the inherited increment (an exception there propagates, with the base
mutations kept); then, unless both `play` and `task` are absent, the
fine-grained update. -/
def DictionaryStats.increment (d : DictionaryStats) (what host : String)
    (play : Option Play) (task : Option Task) : DictionaryStats × Option PyErr :=
  let r := d.base.increment what host
  let d' := { d with base := r.1 }
  match r.2 with
  | some e => (d', some e)
  | none =>
      match play, task with
      | none, none => (d', none)
      | _, _ => d'._increment_tuple_dict what host play task

/-- `DictionaryStats.summarize_playbooks(self, host)`: the per-host slice of
the fine-grained index (empty, i.e. all zero, for unseen hosts). -/
def DictionaryStats.summarize_playbooks (d : DictionaryStats) (host : String) :
    TupleKey → String → Nat :=
  d.processed_playbooks host

/-- Inherited `set_custom_stats` on a `DictionaryStats` instance: the
method only touches the shared base attributes. -/
def DictionaryStats.set_custom_stats (d : DictionaryStats) (which : String)
    (what : PyVal) (host : Option String) : DictionaryStats × Option PyErr :=
  let r := d.base.set_custom_stats which what host
  ({ d with base := r.1 }, r.2)

/-- Inherited `update_custom_stats` on a `DictionaryStats` instance. -/
def DictionaryStats.update_custom_stats (d : DictionaryStats) (which : String)
    (what : PyVal) (host : Option String) : DictionaryStats × Option PyErr :=
  let r := d.base.update_custom_stats which what host
  ({ d with base := r.1 }, r.2)

/-- Replace the counter map selected by an outcome kind (used only to state
lemmas about `increment`). -/
def StatKind.set : StatKind → AggregateStats → (String → Nat) → AggregateStats
  | .processed, s, f => { s with processed := f }
  | .ok, s, f => { s with ok := f }
  | .failures, s, f => { s with failures := f }
  | .dark, s, f => { s with dark := f }
  | .changed, s, f => { s with changed := f }
  | .skipped, s, f => { s with skipped := f }

/-- Remove a prefix from a string if present (helper for the spec-worded
name resolution below). -/
def stripPre (pre s : String) : String :=
  if pre.data.isPrefixOf s.data then ⟨s.data.drop pre.data.length⟩ else s

/-- Claim C2's description of the name resolution, followed to the letter:
take the FIRST line of the file that contains the marker `name:`, strip any
leading list-item dash and the `name:` prefix, and use the trimmed text. -/
def specFirstName (lines : List String) : Option String :=
  match lines.filter (fun l => pyContains l "name:") with
  | [] => none
  | l :: _ =>
      let t := pyStrip l
      let t := stripPre "- " t
      let t := stripPre "name:" t
      let t := pyStrip t
      if t = "" then none else some t

/-- The behavior the source actually implements, stated declaratively: the
LAST line of the file containing `name:`, with every occurrence of `name:`
and of `- ` removed and the text trimmed; no such line, or an empty result,
is a failure. -/
def lastNameLineValue (lines : List String) : Option String :=
  match (lines.filter (fun l => pyContains l "name:")).getLast? with
  | none => none
  | some l => if nameLineValue l = "" then none else some (nameLineValue l)

/-- Equality of all six per-host outcome counters between two aggregator
states (the frame of the custom-stat operations). -/
def counterFrame (s t : AggregateStats) : Prop :=
  t.processed = s.processed ∧ t.ok = s.ok ∧ t.failures = s.failures ∧
    t.dark = s.dark ∧ t.changed = s.changed ∧ t.skipped = s.skipped

/-- Claim C7's invariant, literally: a host with any non-zero outcome
counter has its processed flag equal to 1. -/
def processedFlagEq1 (s : AggregateStats) : Prop :=
  ∀ h : String,
    (s.ok h ≠ 0 ∨ s.failures h ≠ 0 ∨ s.dark h ≠ 0 ∨ s.changed h ≠ 0 ∨ s.skipped h ≠ 0) →
    s.processed h = 1

/-- The weakening of C7's invariant that the code actually preserves: a
host with any non-zero outcome counter has a positive processed flag. -/
def processedFlagPos (s : AggregateStats) : Prop :=
  ∀ h : String,
    (s.ok h ≠ 0 ∨ s.failures h ≠ 0 ∨ s.dark h ≠ 0 ∨ s.changed h ≠ 0 ∨ s.skipped h ≠ 0) →
    1 ≤ s.processed h

/-- The mutating operations of the base aggregator (the driving interface
plus the custom-stat calls). -/
inductive BaseOp where
  | inc (k : StatKind) (host : String)
  | setC (which : String) (what : PyVal) (host : Option String)
  | updC (which : String) (what : PyVal) (host : Option String)

/-- Apply a base-aggregator operation, keeping the post-state (also when
the operation raised, matching Python, where mutations made before a raise
survive). -/
def applyBaseOp (s : AggregateStats) : BaseOp → AggregateStats
  | .inc k host => (s.increment k.attr host).1
  | .setC which what host => (s.set_custom_stats which what host).1
  | .updC which what host => (s.update_custom_stats which what host).1

/-- The mutating operations of the extended aggregator. -/
inductive DictOp where
  | inc (k : StatKind) (host : String) (play : Option Play) (task : Option Task)
  | setC (which : String) (what : PyVal) (host : Option String)
  | updC (which : String) (what : PyVal) (host : Option String)

/-- Apply an extended-aggregator operation, keeping the post-state. -/
def applyDictOp (d : DictionaryStats) : DictOp → DictionaryStats
  | .inc k host play task => (d.increment k.attr host play task).1
  | .setC which what host => (d.set_custom_stats which what host).1
  | .updC which what host => (d.update_custom_stats which what host).1

/-- The `DictionaryStats` instance constructed from an empty playbook list
(`DictionaryStats.init fs []` succeeds with exactly this state). -/
def emptyDict : DictionaryStats where
  base := freshAgg
  play_to_path_map := []
  processed_playbooks := fun _ _ _ => 0

theorem upd_same {α : Type} (f : String → α) (k : String) (v : α) : upd f k v k = v := by
  simp [upd]

theorem upd_ne {α : Type} (f : String → α) (k : String) (v : α) {x : String} (h : x ≠ k) :
    upd f k v x = f x := by
  simp [upd, h]

theorem increment_attr (k : StatKind) (hk : k ≠ StatKind.processed)
    (s : AggregateStats) (host : String) :
    s.increment k.attr host =
      (k.set { s with processed := upd s.processed host 1 }
        (upd (k.get s) host (k.get s host + 1)), none) := by
  cases k
  · exact absurd rfl hk
  all_goals rfl

theorem increment_processed_def (s : AggregateStats) (host : String) :
    s.increment "processed" host =
      ({ s with processed := upd (upd s.processed host 1) host (upd s.processed host 1 host + 1) },
        none) := rfl

theorem get_set_same (k : StatKind) (s : AggregateStats) (f : String → Nat) :
    k.get (k.set s f) = f := by
  cases k <;> rfl

theorem get_set_ne {k k' : StatKind} (h : k' ≠ k) (s : AggregateStats) (f : String → Nat) :
    k'.get (k.set s f) = k'.get s := by
  cases k <;> cases k' <;> first | rfl | exact absurd rfl h

theorem get_upd_processed {k : StatKind} (h : k ≠ StatKind.processed)
    (s : AggregateStats) (p : String → Nat) :
    k.get { s with processed := p } = k.get s := by
  cases k <;> first | exact absurd rfl h | rfl

theorem processed_set {k : StatKind} (h : k ≠ StatKind.processed)
    (s : AggregateStats) (f : String → Nat) :
    (k.set s f).processed = s.processed := by
  cases k <;> first | exact absurd rfl h | rfl

theorem custom_set (k : StatKind) (s : AggregateStats) (f : String → Nat) :
    (k.set s f).custom = s.custom := by
  cases k <;> rfl

theorem get_fresh (k : StatKind) : k.get freshAgg = fun _ => 0 := by
  cases k <;> rfl

theorem summField_get {k : StatKind} (h : k ≠ StatKind.processed)
    (s : AggregateStats) (host : String) :
    k.summField (s.summarize host) = k.get s host := by
  cases k <;> first | exact absurd rfl h | rfl

theorem iter_increment (k : StatKind) (hk : k ≠ StatKind.processed) (host : String)
    (n : Nat) :
    k.get ((fun st : AggregateStats => (st.increment k.attr host).1)^[n] freshAgg) host = n ∧
    (∀ k' : StatKind, k' ≠ k → k' ≠ StatKind.processed →
      k'.get ((fun st : AggregateStats => (st.increment k.attr host).1)^[n] freshAgg) host = 0) ∧
    ((fun st : AggregateStats => (st.increment k.attr host).1)^[n] freshAgg).processed host =
      if n = 0 then 0 else 1 := by
  induction n with
  | zero =>
      refine ⟨?_, ?_, ?_⟩
      · rw [Function.iterate_zero_apply, get_fresh]
      · intro k' _ _
        rw [Function.iterate_zero_apply, get_fresh]
      · rw [Function.iterate_zero_apply]
        rfl
  | succ n ih =>
      rw [Function.iterate_succ_apply', increment_attr k hk]
      dsimp only
      refine ⟨?_, ?_, ?_⟩
      · rw [get_set_same, upd_same, ih.1]
      · intro k' h1 h2
        rw [get_set_ne h1, get_upd_processed h2]
        exact ih.2.1 k' h1 h2
      · rw [processed_set hk]
        show upd _ host 1 host = _
        rw [upd_same, if_neg (Nat.succ_ne_zero n)]

/-- C1: for every host and every outcome kind `k` that has a corresponding
`summarize` field (all kinds of the fixed enumeration except the implicit
`processed` flag, which `increment` sets rather than counts), after
`n ≥ 1` calls to `increment(k, host)` on a fresh `AggregateStats`,
`summarize(host)` shows exactly `n` in the field corresponding to `k` and
`0` in every other field, the `processed` counter for the host equals `1`,
and no call raises. -/
theorem c1_repeated_increment (k : StatKind) (host : String) (n : Nat)
    (hk : k ≠ StatKind.processed) (hn : 0 < n) :
    k.summField
      (((fun st : AggregateStats => (st.increment k.attr host).1)^[n] freshAgg).summarize host)
      = n ∧
    (∀ k' : StatKind, k' ≠ k → k' ≠ StatKind.processed →
      k'.summField
        (((fun st : AggregateStats => (st.increment k.attr host).1)^[n] freshAgg).summarize host)
        = 0) ∧
    ((fun st : AggregateStats => (st.increment k.attr host).1)^[n] freshAgg).processed host = 1 ∧
    (∀ st : AggregateStats, (st.increment k.attr host).2 = none) := by
  obtain ⟨h1, h2, h3⟩ := iter_increment k hk host n
  refine ⟨?_, ?_, ?_, ?_⟩
  · rw [summField_get hk, h1]
  · intro k' hne hnp
    rw [summField_get hnp, h2 k' hne hnp]
  · rw [h3, if_neg (Nat.pos_iff_ne_zero.mp hn)]
  · intro st
    rw [increment_attr k hk]

theorem c1_repeated_increment_witness :
    StatKind.failures ≠ StatKind.processed ∧ 0 < 3 ∧
    StatKind.failures.summField
      (((fun st : AggregateStats =>
        (st.increment StatKind.failures.attr "h1").1)^[3] freshAgg).summarize "h1") = 3 ∧
    StatKind.ok.summField
      (((fun st : AggregateStats =>
        (st.increment StatKind.failures.attr "h1").1)^[3] freshAgg).summarize "h1") = 0 ∧
    ((fun st : AggregateStats =>
        (st.increment StatKind.failures.attr "h1").1)^[3] freshAgg).processed "h1" = 1 :=
  ⟨by decide, by decide,
    (c1_repeated_increment StatKind.failures "h1" 3 (by decide) (by decide)).1,
    (c1_repeated_increment StatKind.failures "h1" 3 (by decide) (by decide)).2.1
      StatKind.ok (by decide) (by decide),
    (c1_repeated_increment StatKind.failures "h1" 3 (by decide) (by decide)).2.2.1⟩

theorem foldl_nameLine (lines : List String) : ∀ acc : String,
    lines.foldl (fun acc line => if pyContains line "name:" then nameLineValue line else acc) acc =
      match (lines.filter (fun l => pyContains l "name:")).getLast? with
      | none => acc
      | some l => nameLineValue l := by
  induction lines with
  | nil => intro acc; rfl
  | cons a t ih =>
      intro acc
      by_cases h : pyContains a "name:"
      · have hf : List.filter (fun l => pyContains l "name:") (a :: t)
            = a :: List.filter (fun l => pyContains l "name:") t := by
          simp [List.filter_cons, h]
        rw [List.foldl_cons, if_pos h, ih, hf]
        cases hft : t.filter (fun l => pyContains l "name:") with
        | nil => rfl
        | cons b bt =>
            rw [List.getLast?_cons_cons]
            cases hbl : (b :: bt).getLast? with
            | none => exact absurd hbl (by simp)
            | some x => rfl
      · have hf : List.filter (fun l => pyContains l "name:") (a :: t)
            = List.filter (fun l => pyContains l "name:") t := by
          simp [List.filter_cons, h]
        rw [List.foldl_cons, if_neg h, ih, hf]

/-- C2, counterexample: the source records the name derived from the LAST
line containing the marker `name:` (the scanning loop has no break and
each match overwrites the previous), and it removes every occurrence of
`- `, not only a leading list-item dash — so on a file whose first
matching line is `- name: A - X` and whose last is `name: B - Y` the
recorded name is `B Y`, while the claim's first-line rule yields
`A - X`. -/
theorem c2_counterexample :
    _get_playbook_name ["- name: A - X", "name: B - Y"] = some "B Y" ∧
    specFirstName ["- name: A - X", "name: B - Y"] = some "A - X" ∧
    ("B Y" : String) ≠ "A - X" :=
  ⟨by decide, by decide, by decide⟩

/-- C2, amended: the name recorded for a playbook file is derived from the
LAST line of the file that contains the marker `name:`, with every
occurrence of the substrings `name:` and `- ` removed and the text
trimmed; a file with no such line, or whose last such line trims to the
empty string, has no resolvable name. -/
theorem c2_playbook_name_last_line (lines : List String) :
    _get_playbook_name lines = lastNameLineValue lines := by
  unfold _get_playbook_name lastNameLineValue
  rw [foldl_nameLine lines ""]
  cases hl : (lines.filter (fun l => pyContains l "name:")).getLast? with
  | none => simp
  | some l =>
      by_cases hv : nameLineValue l = ""
      · simp [hv]
      · simp [hv]

/-- C9, counterexample: `custom` is an outcome kind outside the fixed
enumeration, yet `increment("custom", h)` on a fresh aggregator raises
nothing and silently updates state (it stores the integer 1 in the
custom-stat store and sets the processed flag), because the dynamic
`getattr` lookup accepts any dict-valued attribute, not only the
counters. -/
theorem c9_counterexample :
    ("custom" ∉ ["processed", "ok", "failed", "unreachable", "changed", "skipped"]) ∧
    (freshAgg.increment "custom" "h1").2 = none ∧
    (freshAgg.increment "custom" "h1").1.custom "h1" = some (PyVal.int 1) ∧
    (freshAgg.increment "custom" "h1").1.processed "h1" = 1 :=
  ⟨by decide, rfl, rfl, rfl⟩

/-- C9, amended: `increment` with an outcome kind that names none of the
aggregator's dict attributes (the six counters and `custom`) raises an
`AttributeError`, but only after `processed[host]` has already been set to
1; in particular the spec-level kind names `failed` and `unreachable` raise
(the counters are spelled `failures` and `dark`), while `custom` is
silently accepted. -/
theorem c9_unknown_kind_raises (s : AggregateStats) (what host : String)
    (h : what ∉ ["processed", "ok", "failures", "dark", "changed", "skipped", "custom"]) :
    s.increment what host =
      ({ s with processed := upd s.processed host 1 }, some PyErr.attributeError) := by
  simp only [List.mem_cons, List.not_mem_nil, or_false, not_or] at h
  obtain ⟨h1, h2, h3, h4, h5, h6, h7⟩ := h
  unfold AggregateStats.increment
  rw [if_neg h1, if_neg h2, if_neg h3, if_neg h4, if_neg h5, if_neg h6, if_neg h7]

theorem c9_unknown_kind_raises_witness :
    ("failed" ∉ ["processed", "ok", "failures", "dark", "changed", "skipped", "custom"]) ∧
    freshAgg.increment "failed" "h1" =
      ({ freshAgg with processed := upd freshAgg.processed "h1" 1 }, some PyErr.attributeError) :=
  ⟨by decide, c9_unknown_kind_raises freshAgg "failed" "h1" (by decide)⟩

/-- C4, counterexample: Python `isinstance` is subclass-aware, and `bool`
is a subclass of `int`; after storing the int 5 under metric `x`,
`update_custom_stats("x", True, host="h1")` has a new value whose runtime
type (`bool`) does not match the stored type (`int`) exactly, yet the call
is NOT a no-op: it merges and stores 6. -/
theorem c4_counterexample :
    PyVal.tag (PyVal.bool true) ≠ PyVal.tag (PyVal.int 5) ∧
    ((freshAgg.set_custom_stats "x" (PyVal.int 5) (some "h1")).1.update_custom_stats
        "x" (PyVal.bool true) (some "h1")).1.custom "h1"
      = some (PyVal.dict [("x", PyVal.int 6)]) ∧
    ((freshAgg.set_custom_stats "x" (PyVal.int 5) (some "h1")).1.update_custom_stats
        "x" (PyVal.bool true) (some "h1")).2 = none :=
  ⟨by decide, rfl, rfl⟩

/-- C4, amended: `update_custom_stats` with a stored prior value is a
no-op — it raises nothing and leaves the whole state unchanged — whenever
the new value is NOT an instance of the stored value's runtime type in
Python's `isinstance` sense (under which a `bool` counts as an `int`);
merging happens exactly when the `isinstance` check passes. -/
theorem c4_type_mismatch_noop (s : AggregateStats) (which : String) (what : PyVal)
    (host : Option String) (d : List (String × PyVal)) (prior : PyVal)
    (hd : s.custom (host.getD "_run") = some (PyVal.dict d))
    (hw : alistGet d which = some prior)
    (hm : pyIsInstance what prior.tag = false) :
    s.update_custom_stats which what host = (s, none) := by
  unfold AggregateStats.update_custom_stats
  simp only [hd, hw, if_pos hm]

theorem c4_type_mismatch_noop_witness :
    ((freshAgg.set_custom_stats "x" (PyVal.int 5) (some "h1")).1.custom ((some "h1").getD "_run")
      = some (PyVal.dict [("x", PyVal.int 5)])) ∧
    pyIsInstance (PyVal.str "s") (PyVal.int 5).tag = false ∧
    (freshAgg.set_custom_stats "x" (PyVal.int 5) (some "h1")).1.update_custom_stats
        "x" (PyVal.str "s") (some "h1")
      = ((freshAgg.set_custom_stats "x" (PyVal.int 5) (some "h1")).1, none) :=
  ⟨rfl, by decide,
    c4_type_mismatch_noop _ "x" (PyVal.str "s") (some "h1") [("x", PyVal.int 5)]
      (PyVal.int 5) rfl rfl (by decide)⟩

theorem set_custom_norm (s : AggregateStats) (which : String) (what : PyVal)
    (host : Option String) :
    s.set_custom_stats which what (some (host.getD "_run")) =
      s.set_custom_stats which what host := by
  cases host <;> rfl

/-- C8: with no prior value for (host, metric), `update_custom_stats`
behaves exactly like `set_custom_stats`; with a stored numeric prior of
matching type it stores the sum; in particular updating `x` by 5 and then
by 3 on host `h1` leaves 8 stored. -/
theorem c8_update_custom_merge :
    (∀ (s : AggregateStats) (which : String) (what : PyVal) (host : Option String),
      (s.custom (host.getD "_run") = none ∨
        (∃ d, s.custom (host.getD "_run") = some (PyVal.dict d) ∧ alistGet d which = none)) →
      s.update_custom_stats which what host = s.set_custom_stats which what host) ∧
    (∀ (s : AggregateStats) (which : String) (a b : Int) (host : Option String)
        (d : List (String × PyVal)),
      s.custom (host.getD "_run") = some (PyVal.dict d) →
      alistGet d which = some (PyVal.int a) →
      (s.update_custom_stats which (PyVal.int b) host).1.custom (host.getD "_run")
          = some (PyVal.dict (alistSet d which (PyVal.int (a + b)))) ∧
        (s.update_custom_stats which (PyVal.int b) host).2 = none) ∧
    ((freshAgg.update_custom_stats "x" (PyVal.int 5) (some "h1")).1.update_custom_stats
        "x" (PyVal.int 3) (some "h1")).1.custom "h1"
      = some (PyVal.dict [("x", PyVal.int 8)]) := by
  refine ⟨?_, ?_, rfl⟩
  · intro s which what host h
    rcases h with hnone | ⟨d, hd, hwhich⟩
    · unfold AggregateStats.update_custom_stats
      simp only [hnone]
      exact set_custom_norm s which what host
    · unfold AggregateStats.update_custom_stats
      simp only [hd, hwhich]
      exact set_custom_norm s which what host
  · intro s which a b host d hd hget
    unfold AggregateStats.update_custom_stats
    simp only [hd, hget]
    refine ⟨?_, ?_⟩
    · show upd s.custom (host.getD "_run") _ (host.getD "_run") = _
      rw [upd_same]
    · rfl

theorem c8_update_custom_merge_witness :
    freshAgg.update_custom_stats "x" (PyVal.int 5) (some "h1") =
      freshAgg.set_custom_stats "x" (PyVal.int 5) (some "h1") ∧
    ((freshAgg.update_custom_stats "x" (PyVal.int 5) (some "h1")).1.update_custom_stats
        "x" (PyVal.int 3) (some "h1")).1.custom "h1"
      = some (PyVal.dict [("x", PyVal.int 8)]) :=
  ⟨c8_update_custom_merge.1 freshAgg "x" (PyVal.int 5) (some "h1") (Or.inl rfl),
    c8_update_custom_merge.2.2⟩

theorem set_custom_only_custom (s : AggregateStats) (which : String) (what : PyVal)
    (host : Option String) :
    ∃ c, (s.set_custom_stats which what host).1 = { s with custom := c } := by
  unfold AggregateStats.set_custom_stats
  dsimp only
  cases hc : s.custom (host.getD "_run") with
  | none => simp only [hc]; exact ⟨_, rfl⟩
  | some v => cases v <;> simp only [hc] <;> exact ⟨_, rfl⟩

theorem update_custom_only_custom (s : AggregateStats) (which : String) (what : PyVal)
    (host : Option String) :
    ∃ c, (s.update_custom_stats which what host).1 = { s with custom := c } := by
  unfold AggregateStats.update_custom_stats
  dsimp only
  cases hc : s.custom (host.getD "_run") with
  | none =>
      simp only [hc]
      exact set_custom_only_custom s which what (some (host.getD "_run"))
  | some v =>
      cases v with
      | dict d =>
          simp only [hc]
          cases hg : alistGet d which with
          | none =>
              simp only [hg]
              exact set_custom_only_custom s which what (some (host.getD "_run"))
          | some prior =>
              simp only [hg]
              by_cases hi : pyIsInstance what prior.tag = false
              · rw [if_pos hi]
                exact ⟨_, rfl⟩
              · rw [if_neg hi]
                by_cases hmap : pyIsMapping what = true
                · rw [if_pos hmap]
                  cases prior <;> cases what <;> exact ⟨_, rfl⟩
                · rw [if_neg hmap]
                  cases hadd : pyAdd prior what with
                  | none => simp only [hadd]; exact ⟨_, rfl⟩
                  | some v2 => simp only [hadd]; exact ⟨_, rfl⟩
      | int n => simp only [hc]; exact ⟨_, rfl⟩
      | bool b => simp only [hc]; exact ⟨_, rfl⟩
      | str t => simp only [hc]; exact ⟨_, rfl⟩
      | list l => simp only [hc]; exact ⟨_, rfl⟩

/-- C10: frame property.  `set_custom_stats` and `update_custom_stats`
leave every per-host outcome counter unchanged on both aggregators, and on
the extended aggregator also leave the fine-grained playbook index (and
the playbook path map) unchanged; conversely `increment` with any outcome
kind of the fixed enumeration leaves the custom-metric store unchanged on
both aggregators. -/
theorem c10_frame :
    (∀ (s : AggregateStats) (which : String) (what : PyVal) (host : Option String),
      counterFrame s (s.set_custom_stats which what host).1 ∧
      counterFrame s (s.update_custom_stats which what host).1) ∧
    (∀ (d : DictionaryStats) (which : String) (what : PyVal) (host : Option String),
      (d.set_custom_stats which what host).1.processed_playbooks = d.processed_playbooks ∧
      (d.update_custom_stats which what host).1.processed_playbooks = d.processed_playbooks ∧
      counterFrame d.base (d.set_custom_stats which what host).1.base ∧
      counterFrame d.base (d.update_custom_stats which what host).1.base) ∧
    (∀ (s : AggregateStats) (k : StatKind) (host : String),
      (s.increment k.attr host).1.custom = s.custom) ∧
    (∀ (dd : DictionaryStats) (k : StatKind) (host : String) (play : Option Play)
        (task : Option Task),
      (dd.increment k.attr host play task).1.base.custom = dd.base.custom) := by
  refine ⟨?_, ?_, ?_, ?_⟩
  · intro s which what host
    constructor
    · obtain ⟨c, hc⟩ := set_custom_only_custom s which what host
      rw [hc]
      exact ⟨rfl, rfl, rfl, rfl, rfl, rfl⟩
    · obtain ⟨c, hc⟩ := update_custom_only_custom s which what host
      rw [hc]
      exact ⟨rfl, rfl, rfl, rfl, rfl, rfl⟩
  · intro d which what host
    refine ⟨rfl, rfl, ?_, ?_⟩
    · obtain ⟨c, hc⟩ := set_custom_only_custom d.base which what host
      show counterFrame d.base (d.base.set_custom_stats which what host).1
      rw [hc]
      exact ⟨rfl, rfl, rfl, rfl, rfl, rfl⟩
    · obtain ⟨c, hc⟩ := update_custom_only_custom d.base which what host
      show counterFrame d.base (d.base.update_custom_stats which what host).1
      rw [hc]
      exact ⟨rfl, rfl, rfl, rfl, rfl, rfl⟩
  · intro s k host
    cases k <;> rfl
  · intro dd k host play task
    cases k <;> cases play <;> cases task <;> rfl

theorem increment_processed_pos (s : AggregateStats) (what host : String) :
    1 ≤ (s.increment what host).1.processed host := by
  unfold AggregateStats.increment
  dsimp only
  repeat' split
  all_goals try dsimp only
  all_goals first
    | (rw [upd_same]; omega)
    | rw [upd_same]

theorem increment_other_host (s : AggregateStats) (what host x : String)
    (hx : x ≠ host) :
    (s.increment what host).1.processed x = s.processed x ∧
    (s.increment what host).1.ok x = s.ok x ∧
    (s.increment what host).1.failures x = s.failures x ∧
    (s.increment what host).1.dark x = s.dark x ∧
    (s.increment what host).1.changed x = s.changed x ∧
    (s.increment what host).1.skipped x = s.skipped x := by
  unfold AggregateStats.increment
  dsimp only
  repeat' split
  all_goals try dsimp only
  all_goals refine ⟨?_, ?_, ?_, ?_, ?_, ?_⟩
  all_goals first
    | rfl
    | simp only [upd_ne _ _ _ hx]

theorem increment_preserves_pos (s : AggregateStats) (what host : String)
    (hinv : processedFlagPos s) : processedFlagPos (s.increment what host).1 := by
  intro x hne
  by_cases hx : x = host
  · subst hx
    exact increment_processed_pos s what x
  · obtain ⟨hp, ho, hf, hd2, hc2, hs2⟩ := increment_other_host s what host x hx
    rw [hp]
    rcases hne with h0 | h0 | h0 | h0 | h0
    · exact hinv x (Or.inl (ho ▸ h0))
    · exact hinv x (Or.inr (Or.inl (hf ▸ h0)))
    · exact hinv x (Or.inr (Or.inr (Or.inl (hd2 ▸ h0))))
    · exact hinv x (Or.inr (Or.inr (Or.inr (Or.inl (hc2 ▸ h0)))))
    · exact hinv x (Or.inr (Or.inr (Or.inr (Or.inr (hs2 ▸ h0)))))

theorem dict_increment_base (d : DictionaryStats) (what host : String)
    (play : Option Play) (task : Option Task) :
    (d.increment what host play task).1.base = (d.base.increment what host).1 := by
  unfold DictionaryStats.increment DictionaryStats._increment_tuple_dict
  dsimp only
  repeat' split
  all_goals rfl

/-- C7, counterexample: the state invariant "a host with a non-zero
outcome counter has processed = 1" is NOT preserved by every operation:
from a fresh aggregator, increment("ok", "h1") yields a state satisfying
it, but the further operation increment("processed", "h1") bumps the
processed flag to 2 while ok stays 1. -/
theorem c7_counterexample :
    processedFlagEq1 (applyBaseOp freshAgg (BaseOp.inc StatKind.ok "h1")) ∧
    ¬ processedFlagEq1
        (applyBaseOp (applyBaseOp freshAgg (BaseOp.inc StatKind.ok "h1"))
          (BaseOp.inc StatKind.processed "h1")) := by
  constructor
  · intro x hne
    by_cases hx : x = "h1"
    · subst hx
      rfl
    · exfalso
      rcases hne with h0 | h0 | h0 | h0 | h0
      · apply h0
        show upd freshAgg.ok "h1" (freshAgg.ok "h1" + 1) x = 0
        rw [upd_ne _ _ _ hx]
        rfl
      · exact h0 rfl
      · exact h0 rfl
      · exact h0 rfl
      · exact h0 rfl
  · intro hinv
    have h2 := hinv "h1" (Or.inl (by decide))
    exact absurd h2 (by decide)

/-- C7, amended: the preserved state invariant is that any host with a
non-zero count in any outcome counter has a POSITIVE processed flag
(processed is 1 unless increment is also driven with the kind `processed`
itself, which bumps the flag to 2); this weakened invariant is preserved
by every operation of both aggregators. -/
theorem c7_processed_flag_invariant :
    (∀ (s : AggregateStats) (op : BaseOp),
      processedFlagPos s → processedFlagPos (applyBaseOp s op)) ∧
    (∀ (d : DictionaryStats) (op : DictOp),
      processedFlagPos d.base → processedFlagPos (applyDictOp d op).base) := by
  constructor
  · intro s op hinv
    cases op with
    | inc k host => exact increment_preserves_pos s k.attr host hinv
    | setC which what host =>
        obtain ⟨c, hc⟩ := set_custom_only_custom s which what host
        show processedFlagPos (s.set_custom_stats which what host).1
        rw [hc]
        exact hinv
    | updC which what host =>
        obtain ⟨c, hc⟩ := update_custom_only_custom s which what host
        show processedFlagPos (s.update_custom_stats which what host).1
        rw [hc]
        exact hinv
  · intro d op hinv
    cases op with
    | inc k host play task =>
        show processedFlagPos (d.increment k.attr host play task).1.base
        rw [dict_increment_base]
        exact increment_preserves_pos d.base k.attr host hinv
    | setC which what host =>
        obtain ⟨c, hc⟩ := set_custom_only_custom d.base which what host
        show processedFlagPos (d.base.set_custom_stats which what host).1
        rw [hc]
        exact hinv
    | updC which what host =>
        obtain ⟨c, hc⟩ := update_custom_only_custom d.base which what host
        show processedFlagPos (d.base.update_custom_stats which what host).1
        rw [hc]
        exact hinv

theorem c7_processed_flag_invariant_witness :
    processedFlagPos freshAgg ∧
    processedFlagPos (applyBaseOp freshAgg (BaseOp.inc StatKind.ok "h1")) ∧
    processedFlagPos
      (applyDictOp emptyDict
        (DictOp.inc StatKind.failures "h1" (some ⟨some "P"⟩)
          (some ⟨some "T", none⟩))).base := by
  have hfresh : processedFlagPos freshAgg := by
    intro x hne
    rcases hne with h0 | h0 | h0 | h0 | h0 <;> exact absurd rfl h0
  exact ⟨hfresh,
    c7_processed_flag_invariant.1 freshAgg (BaseOp.inc StatKind.ok "h1") hfresh,
    c7_processed_flag_invariant.2 emptyDict
      (DictOp.inc StatKind.failures "h1" (some ⟨some "P"⟩) (some ⟨some "T", none⟩))
      hfresh⟩

/-- C3: the claim (and the spec's graceful-degradation contract) is
violated by the code on a reachable input: on a freshly constructed
extended aggregator, `increment("failures", "h1", play=None, task=T)`
raises `AttributeError`, because `_increment_tuple_dict` dereferences
`play.name` unconditionally even though it has just computed the
`"No play"` placeholder for exactly this case (third conjunct) — the
placeholder machinery shows the spec matches the intent and the
dereference is the slip. -/
theorem c3_play_none_raises :
    DictionaryStats.init (fun _ => []) [] = Except.ok emptyDict ∧
    (emptyDict.increment "failures" "h1" none (some ⟨none, none⟩)).2
      = some PyErr.attributeError ∧
    _get_playbook_key none = "No play" :=
  ⟨rfl, rfl, rfl⟩

theorem tuple_dict_pp (d : DictionaryStats) (what host : String) (p : Play)
    (task : Option Task)
    (hns : ¬(what = "skipped" ∨ what = "ok" ∨ what = "changed")) :
    (d._increment_tuple_dict what host (some p) task).2 = none ∧
    (d._increment_tuple_dict what host (some p) task).1.processed_playbooks
        host (tupleKeyOf d.play_to_path_map p task) what
      = d.processed_playbooks host (tupleKeyOf d.play_to_path_map p task) what + 1 ∧
    ∀ (h' : String) (tk' : TupleKey) (w' : String),
      ¬(h' = host ∧ tk' = tupleKeyOf d.play_to_path_map p task ∧ w' = what) →
      (d._increment_tuple_dict what host (some p) task).1.processed_playbooks h' tk' w'
        = d.processed_playbooks h' tk' w' := by
  unfold DictionaryStats._increment_tuple_dict
  rw [if_neg hns]
  dsimp only
  refine ⟨rfl, ?_, ?_⟩
  · exact if_pos ⟨rfl, rfl, rfl⟩
  · intro h' tk' w' hne
    exact if_neg hne

/-- C6: incrementing the extended aggregator with a kind in
{ok, skipped, changed} leaves the fine-grained index untouched for every
play/task context (and raises nothing), while a failure-class kind
(`failures` or `dark`) with both play and task context present increments
exactly one composite-key entry of the index by 1, leaving every other
entry unchanged. -/
theorem c6_fine_grained_index :
    (∀ (d : DictionaryStats) (host : String) (play : Option Play)
        (task : Option Task) (what : String),
      (what = "ok" ∨ what = "skipped" ∨ what = "changed") →
      (d.increment what host play task).1.processed_playbooks = d.processed_playbooks ∧
      (d.increment what host play task).2 = none) ∧
    (∀ (d : DictionaryStats) (host : String) (p : Play) (t : Task) (what : String),
      (what = "failures" ∨ what = "dark") →
      (d.increment what host (some p) (some t)).2 = none ∧
      (d.increment what host (some p) (some t)).1.processed_playbooks
          host (tupleKeyOf d.play_to_path_map p (some t)) what
        = d.processed_playbooks host (tupleKeyOf d.play_to_path_map p (some t)) what + 1 ∧
      (∀ (h' : String) (tk' : TupleKey) (w' : String),
        ¬(h' = host ∧ tk' = tupleKeyOf d.play_to_path_map p (some t) ∧ w' = what) →
        (d.increment what host (some p) (some t)).1.processed_playbooks h' tk' w'
          = d.processed_playbooks h' tk' w')) := by
  constructor
  · intro d host play task what hw
    rcases hw with rfl | rfl | rfl <;> cases play <;> cases task <;> exact ⟨rfl, rfl⟩
  · intro d host p t what hw
    rcases hw with rfl | rfl
    · exact tuple_dict_pp { d with base := (d.base.increment "failures" host).1 }
        "failures" host p (some t) (by decide)
    · exact tuple_dict_pp { d with base := (d.base.increment "dark" host).1 }
        "dark" host p (some t) (by decide)

theorem c6_fine_grained_index_witness :
    (emptyDict.increment "ok" "h1" (some ⟨some "P"⟩) (some ⟨some "T", none⟩)).1.processed_playbooks
      = emptyDict.processed_playbooks ∧
    (emptyDict.increment "failures" "h1" (some ⟨some "P"⟩)
        (some ⟨some "T", none⟩)).1.processed_playbooks
      "h1" ("Path: N/A", "Playbook: P", "Role: Unknown Role", "Task: T") "failures" = 1 := by
  refine ⟨(c6_fine_grained_index.1 emptyDict "h1" (some ⟨some "P"⟩)
    (some ⟨some "T", none⟩) "ok" (Or.inl rfl)).1, ?_⟩
  exact (c6_fine_grained_index.2 emptyDict "h1" ⟨some "P"⟩ ⟨some "T", none⟩
    "failures" (Or.inl rfl)).2.1

theorem alistGet_set_self {α : Type} (m : List (String × α)) (k : String) (v : α) :
    alistGet (alistSet m k v) k = some v := by
  induction m with
  | nil => simp [alistSet, alistGet]
  | cons p rest ih =>
      obtain ⟨k', v'⟩ := p
      by_cases h : k' = k
      · subst h
        simp [alistSet, alistGet]
      · simp [alistSet, alistGet, h, ih]

theorem alistGet_set_ne {α : Type} (m : List (String × α)) (k k' : String) (v : α)
    (h : k' ≠ k) : alistGet (alistSet m k v) k' = alistGet m k' := by
  have h2 : ¬ k = k' := fun e => h e.symm
  induction m with
  | nil => simp [alistSet, alistGet, h2]
  | cons p rest ih =>
      obtain ⟨a, b⟩ := p
      by_cases ha : a = k
      · subst ha
        simp [alistSet, alistGet, h2]
      · by_cases hk' : a = k'
        · subst hk'
          simp [alistSet, alistGet, ha]
        · simp [alistSet, alistGet, ha, hk', ih]

theorem length_alistSet {α : Type} (m : List (String × α)) (k : String) (v : α) :
    (alistSet m k v).length =
      if (alistGet m k).isSome then m.length else m.length + 1 := by
  induction m with
  | nil => simp [alistSet, alistGet]
  | cons p rest ih =>
      obtain ⟨a, b⟩ := p
      by_cases ha : a = k
      · subst ha
        simp [alistSet, alistGet]
      · simp [alistSet, alistGet, ha, ih]
        split <;> rfl

theorem build_ok_iff (fs : String → List String) :
    ∀ (args : List String) (m : List (String × String)),
      (∃ m', buildPlaybookMap fs m args = Except.ok m') ↔
        ∀ pb ∈ args, (_get_playbook_name (fs pb)).isSome := by
  intro args
  induction args with
  | nil =>
      intro m
      constructor
      · intro _ pb hpb
        exact absurd hpb (List.not_mem_nil pb)
      · intro _
        exact ⟨m, rfl⟩
  | cons a rest ih =>
      intro m
      cases hn : _get_playbook_name (fs a) with
      | none =>
          constructor
          · rintro ⟨m', hm'⟩
            simp only [buildPlaybookMap, hn] at hm'
            exact Except.noConfusion hm'
          · intro hall
            have ha := hall a (List.mem_cons_self a rest)
            rw [hn] at ha
            exact absurd ha (by simp)
      | some n =>
          constructor
          · rintro ⟨m', hm'⟩
            simp only [buildPlaybookMap, hn] at hm'
            intro pb hpb
            rcases List.mem_cons.mp hpb with rfl | hmem
            · rw [hn]; rfl
            · exact ((ih (alistSet m n a)).mp ⟨m', hm'⟩) pb hmem
          · intro hall
            obtain ⟨m', hm'⟩ := (ih (alistSet m n a)).mpr
              (fun pb hpb => hall pb (List.mem_cons_of_mem a hpb))
            refine ⟨m', ?_⟩
            simp only [buildPlaybookMap, hn]
            exact hm'

theorem build_len (fs : String → List String) :
    ∀ (args : List String) (m m' : List (String × String)),
      buildPlaybookMap fs m args = Except.ok m' →
      m'.length ≤ m.length + args.length ∧
      (m'.length = m.length + args.length ↔
        (∀ pb1 ∈ args, ∀ n, _get_playbook_name (fs pb1) = some n →
          (alistGet m n).isSome = false) ∧
        (args.map fun pb => _get_playbook_name (fs pb)).Nodup) := by
  intro args
  induction args with
  | nil =>
      intro m m' hm
      simp only [buildPlaybookMap] at hm
      cases hm
      simp
  | cons a rest ih =>
      intro m m' hm
      cases hn : _get_playbook_name (fs a) with
      | none =>
          simp only [buildPlaybookMap, hn] at hm
          exact Except.noConfusion hm
      | some na =>
          simp only [buildPlaybookMap, hn] at hm
          obtain ⟨hle, hiff⟩ := ih (alistSet m na a) m' hm
          rw [length_alistSet] at hle hiff
          by_cases hgm : (alistGet m na).isSome
          · rw [if_pos hgm] at hle hiff
            constructor
            · simp only [List.length_cons]
              omega
            · constructor
              · intro heq
                exfalso
                simp only [List.length_cons] at heq
                omega
              · rintro ⟨hfresh, _⟩
                exfalso
                have hff := hfresh a (List.mem_cons_self a rest) na hn
                rw [hff] at hgm
                exact Bool.noConfusion hgm
          · rw [if_neg hgm] at hle hiff
            have hgm' : (alistGet m na).isSome = false := by
              cases hb : (alistGet m na).isSome
              · rfl
              · exact absurd hb hgm
            constructor
            · simp only [List.length_cons]
              omega
            · rw [show m.length + (a :: rest).length = m.length + 1 + rest.length by
                simp only [List.length_cons]; omega]
              rw [hiff]
              simp only [List.map_cons, List.nodup_cons]
              constructor
              · rintro ⟨hfresh1, hnd⟩
                refine ⟨?_, ?_, hnd⟩
                · intro pb1 hpb1 n hn1
                  rcases List.mem_cons.mp hpb1 with rfl | hmem
                  · rw [hn] at hn1
                    cases hn1
                    exact hgm'
                  · have hne : n ≠ na := by
                      intro he
                      subst he
                      have hx := hfresh1 pb1 hmem n hn1
                      rw [alistGet_set_self] at hx
                      simp at hx
                    have hx := hfresh1 pb1 hmem n hn1
                    rwa [alistGet_set_ne m na n a hne] at hx
                · intro hmemmap
                  obtain ⟨pb1, hpb1, hpb1n⟩ := List.mem_map.mp hmemmap
                  have hx := hfresh1 pb1 hpb1 na (by rw [hpb1n, hn])
                  rw [alistGet_set_self] at hx
                  simp at hx
              · rintro ⟨hfresh, hnotmem, hnd⟩
                refine ⟨?_, hnd⟩
                intro pb1 hpb1 n hn1
                have hne : n ≠ na := by
                  intro he
                  subst he
                  apply hnotmem
                  exact List.mem_map.mpr ⟨pb1, hpb1, by rw [hn1, hn]⟩
                rw [alistGet_set_ne m na n a hne]
                exact hfresh pb1 (List.mem_cons_of_mem a hpb1) n hn1

theorem build_preserve (fs : String → List String) :
    ∀ (args : List String) (m m' : List (String × String)),
      buildPlaybookMap fs m args = Except.ok m' →
      ∀ n : String, (∀ pb ∈ args, _get_playbook_name (fs pb) ≠ some n) →
      alistGet m' n = alistGet m n := by
  intro args
  induction args with
  | nil =>
      intro m m' hm n _
      simp only [buildPlaybookMap] at hm
      cases hm
      rfl
  | cons a rest ih =>
      intro m m' hm n hnotn
      cases hn : _get_playbook_name (fs a) with
      | none =>
          simp only [buildPlaybookMap, hn] at hm
          exact Except.noConfusion hm
      | some na =>
          simp only [buildPlaybookMap, hn] at hm
          have hna : na ≠ n := by
            intro he
            subst he
            exact hnotn a (List.mem_cons_self a rest) hn
          rw [ih (alistSet m na a) m' hm n
            (fun pb hpb => hnotn pb (List.mem_cons_of_mem a hpb))]
          exact alistGet_set_ne m na n a (fun e => hna e.symm)

theorem build_lookup (fs : String → List String) :
    ∀ (args : List String) (m m' : List (String × String)),
      buildPlaybookMap fs m args = Except.ok m' →
      (args.map fun pb => _get_playbook_name (fs pb)).Nodup →
      ∀ pb ∈ args, ∀ n, _get_playbook_name (fs pb) = some n → alistGet m' n = some pb := by
  intro args
  induction args with
  | nil =>
      intro m m' _ _ pb hpb
      exact absurd hpb (List.not_mem_nil pb)
  | cons a rest ih =>
      intro m m' hm hnd pb hpb n hpbn
      cases hn : _get_playbook_name (fs a) with
      | none =>
          simp only [buildPlaybookMap, hn] at hm
          exact Except.noConfusion hm
      | some na =>
          simp only [buildPlaybookMap, hn] at hm
          simp only [List.map_cons, List.nodup_cons] at hnd
          obtain ⟨hnotmem, hndrest⟩ := hnd
          rcases List.mem_cons.mp hpb with rfl | hmem
          · rw [hn] at hpbn
            have hnn : n = na := (Option.some.inj hpbn).symm
            rw [hnn]
            rw [hn] at hnotmem
            have hfree : ∀ pb1 ∈ rest, _get_playbook_name (fs pb1) ≠ some na := by
              intro pb1 hpb1 he
              exact hnotmem (List.mem_map.mpr ⟨pb1, hpb1, he⟩)
            rw [build_preserve fs rest (alistSet m na pb) m' hm na hfree]
            exact alistGet_set_self m na pb
          · exact ih (alistSet m na a) m' hm hndrest pb hmem n hpbn

/-- C5: constructing the extended aggregator's playbook map fails (raises)
exactly when some input file has no resolvable name or two input files
resolve to the same name; equivalently, construction succeeds precisely
when every file resolves and the resolved name list has no duplicates, and
in that case the map sends each playbook's resolved name to that
playbook's file path. -/
theorem c5_playbook_map (fs : String → List String) (args : List String) :
    ((∃ m, _get_playbook_map fs args = Except.ok m) ↔
      (∀ pb ∈ args, (_get_playbook_name (fs pb)).isSome) ∧
      (args.map fun pb => _get_playbook_name (fs pb)).Nodup) ∧
    (∀ m, _get_playbook_map fs args = Except.ok m →
      ∀ pb ∈ args, ∀ n, _get_playbook_name (fs pb) = some n → alistGet m n = some pb) := by
  cases hb : buildPlaybookMap fs [] args with
  | error e =>
      constructor
      · constructor
        · rintro ⟨m, hm⟩
          simp only [_get_playbook_map, hb] at hm
          exact Except.noConfusion hm
        · rintro ⟨hall, _⟩
          obtain ⟨m', hm'⟩ := (build_ok_iff fs args []).mpr hall
          rw [hb] at hm'
          exact Except.noConfusion hm'
      · intro m hm
        simp only [_get_playbook_map, hb] at hm
        exact Except.noConfusion hm
  | ok m0 =>
      have hall : ∀ pb ∈ args, (_get_playbook_name (fs pb)).isSome :=
        (build_ok_iff fs args []).mp ⟨m0, hb⟩
      obtain ⟨hle, hiff⟩ := build_len fs args [] m0 hb
      simp only [List.length_nil, Nat.zero_add] at hle hiff
      have hiff2 : m0.length = args.length ↔
          (args.map fun pb => _get_playbook_name (fs pb)).Nodup := by
        rw [hiff]
        constructor
        · exact And.right
        · intro hnd
          exact ⟨fun pb1 _ n _ => rfl, hnd⟩
      constructor
      · constructor
        · rintro ⟨m, hm⟩
          simp only [_get_playbook_map, hb] at hm
          refine ⟨hall, ?_⟩
          by_cases hL : m0.length = args.length
          · exact hiff2.mp hL
          · rw [if_pos hL] at hm
            exact Except.noConfusion hm
        · rintro ⟨_, hnd⟩
          refine ⟨m0, ?_⟩
          simp only [_get_playbook_map, hb]
          rw [if_neg (by exact fun hne => hne (hiff2.mpr hnd))]
      · intro m hm pb hpb n hn
        simp only [_get_playbook_map, hb] at hm
        by_cases hL : m0.length = args.length
        · have hm0 : m0 = m := by
            rw [if_neg (fun hne => hne hL)] at hm
            exact Except.ok.inj hm
          subst hm0
          exact build_lookup fs args [] m0 hb (hiff2.mp hL) pb hpb n hn
        · rw [if_pos hL] at hm
          exact Except.noConfusion hm

theorem c5_playbook_map_witness :
    _get_playbook_map
        (fun p => if p = "a" then ["name: Deploy"] else ["name: Rollback"]) ["a", "b"]
      = Except.ok [("Deploy", "a"), ("Rollback", "b")] ∧
    alistGet [("Deploy", "a"), ("Rollback", "b")] "Deploy" = some "a" ∧
    alistGet [("Deploy", "a"), ("Rollback", "b")] "Rollback" = some "b" := by
  refine ⟨rfl, ?_, ?_⟩
  · exact (c5_playbook_map
      (fun p => if p = "a" then ["name: Deploy"] else ["name: Rollback"]) ["a", "b"]).2
      [("Deploy", "a"), ("Rollback", "b")] rfl "a" (by decide) "Deploy" (by decide)
  · exact (c5_playbook_map
      (fun p => if p = "a" then ["name: Deploy"] else ["name: Rollback"]) ["a", "b"]).2
      [("Deploy", "a"), ("Rollback", "b")] rfl "b" (by decide) "Rollback" (by decide)

end Stats
